import Mathlib

/-
Verification of the label-suggestion logic of
public/app/features/alerting/unified/components/rule-editor/LabelsField.tsx.

The embedding models:
  - the aggregation inside useGetCustomLabels (lines 41 to 71), here called
    buildSuggestionIndex after the design document;
  - mapLabelsToOptions (lines 76 to 78) and getValuesForLabel (lines 138 to 143);
  - the form state of LabelsWithSuggestions: the watched labels array, the
    selectedKey state (line 132), the onChange and onOpenMenu handlers, the
    append and remove field-array operations, and the required-validation
    rules passed to register.

JavaScript records keep string keys in insertion order and a JavaScript Set
keeps elements in insertion order, so Record(string, Set(string)) is embedded
as an association list of (key, list of values) where a new key is appended
at the end and a new value is appended to the list of its key when absent.
A label value is falsy exactly when it is the empty string.
-/

/-- A single alerting rule, as far as this component reads it: an optional
mapping from label key to label value. Object.entries of that mapping is a
list of key-value pairs in insertion order. -/
structure Rule where
  labels : Option (List (String × String))
deriving DecidableEq

/-- A rule group: the component only reads its rules field. -/
structure RuleGroup where
  rules : List Rule
deriving DecidableEq

/-- The ruler rules configuration: a record mapping each namespace name to
its list of rule groups. Object.values of it is the list of group lists in
insertion order. -/
structure RulerRulesConfig where
  namespaces : List (String × List RuleGroup)
deriving DecidableEq

/-- The suggestion index, embedding Record(string, Set(string)). -/
abbrev LabelSuggestionIndex := List (String × List String)

/-- Embedding of JavaScript Set.add on an insertion-ordered set. -/
def setAdd (s : List String) (v : String) : List String :=
  if v ∈ s then s else s ++ [v]

/-- Record access labelsByKey[key], returning the empty list when the key is
absent (the source feeds undefined into the default parameter of
mapLabelsToOptions, which yields the empty option list). -/
def indexLookup (idx : LabelSuggestionIndex) (k : String) : List String :=
  match idx with
  | [] => []
  | (k₁, vs) :: rest => if k₁ = k then vs else indexLookup rest k

/-- One step of the aggregation loop body (lines 60 to 65): add value to the
set stored under key, creating a singleton set on first occurrence. -/
def indexInsert (idx : LabelSuggestionIndex) (k v : String) : LabelSuggestionIndex :=
  match idx with
  | [] => [(k, [v])]
  | (k₁, vs) :: rest =>
    if k₁ = k then (k, setAdd vs v) :: rest else (k₁, vs) :: indexInsert rest k v

/-- The body of the inner forEach (lines 55 to 66): skip a falsy value,
otherwise insert the pair. -/
def addLabelPair (idx : LabelSuggestionIndex) (kv : String × String) : LabelSuggestionIndex :=
  if kv.2 = "" then idx else indexInsert idx kv.1 kv.2

/-- The body of the outer forEach (lines 53 to 68): a rule without a labels
mapping contributes nothing, otherwise every pair is processed in order. -/
def addRuleLabels (idx : LabelSuggestionIndex) (rule : Rule) : LabelSuggestionIndex :=
  match rule.labels with
  | none => idx
  | some pairs => pairs.foldl addLabelPair idx

/-- Lines 49 to 51: Object.values, flatMap over group lists, flatMap over the
rules of each group. -/
def allRulesOf (cfg : RulerRulesConfig) : List Rule :=
  ((cfg.namespaces.map Prod.snd).flatMap id).flatMap (fun g => g.rules)

/-- The useMemo body of useGetCustomLabels (lines 41 to 71): an absent
configuration yields the empty record, otherwise the aggregation runs over
all rules starting from the empty record. -/
def buildSuggestionIndex (config : Option RulerRulesConfig) : LabelSuggestionIndex :=
  match config with
  | none => []
  | some cfg => (allRulesOf cfg).foldl addRuleLabels []

/-- The option records built by mapLabelsToOptions (lines 76 to 78). -/
structure SelectableValue where
  label : String
  value : String
deriving DecidableEq

/-- mapLabelsToOptions (lines 76 to 78). -/
def mapLabelsToOptions (items : List String) : List SelectableValue :=
  items.map (fun item => { label := item, value := item })

/-- getValuesForLabel (lines 138 to 143): options for the values stored under
a key, empty for an unknown key. -/
def getValuesForLabel (labelsByKey : LabelSuggestionIndex) (key : String) : List SelectableValue :=
  mapLabelsToOptions (indexLookup labelsByKey key)

/-- One entry of the labels field array. -/
structure LabelEntry where
  key : String
  value : String
deriving DecidableEq

/-- The state of LabelsWithSuggestions that the claims are about: the watched
labels array, the selectedKey useState (line 132), and the suggestion index
delivered by useGetCustomLabels. -/
structure LabelsState where
  labels : List LabelEntry
  selectedKey : String
  labelsByKey : LabelSuggestionIndex
deriving DecidableEq

/-- Replace the element at a position, leaving the list unchanged when the
position is out of bounds; embeds setValue on a field-array path. -/
def updateAt (l : List LabelEntry) (i : Nat) (f : LabelEntry → LabelEntry) : List LabelEntry :=
  match l, i with
  | [], _ => []
  | e :: rest, 0 => f e :: rest
  | e :: rest, Nat.succ j => e :: updateAt rest j f

/-- The empty entry, the shape appended by the add button. -/
def emptyEntry : LabelEntry := { key := "", value := "" }

/-- The onChange handler of the key dropdown (lines 170 to 173): setValue on
the key path of the entry, then setSelectedKey with the new key. -/
def setEntryKey (s : LabelsState) (i : Nat) (newKey : String) : LabelsState :=
  { s with
    labels := updateAt s.labels i (fun e => { e with key := newKey })
    selectedKey := newKey }

/-- The onChange handler of the value dropdown (lines 190 to 192): setValue
on the value path of the entry only. -/
def setEntryValue (s : LabelsState) (i : Nat) (newValue : String) : LabelsState :=
  { s with labels := updateAt s.labels i (fun e => { e with value := newValue }) }

/-- The onOpenMenu handler of the value dropdown (lines 193 to 195):
setSelectedKey with the key currently stored at the entry. The source indexes
the watched array directly, so the entry exists whenever the handler runs;
the default entry is only for totality. -/
def onOpenValueSuggestions (s : LabelsState) (i : Nat) : LabelsState :=
  { s with selectedKey := (s.labels.getD i emptyEntry).key }

/-- The append call of the add button (line 110): append an entry with empty
key and empty value. -/
def addEntry (s : LabelsState) : LabelsState :=
  { s with labels := s.labels ++ [emptyEntry] }

/-- The remove call of the delete button (lines 91 to 93): the field-array
remove, a no-op when the position is out of bounds. -/
def removeEntry (s : LabelsState) (i : Nat) : LabelsState :=
  { s with labels := s.labels.eraseIdx i }

/-- The values useMemo (lines 145 to 147): options for the selected key. -/
def currentSuggestions (s : LabelsState) : List SelectableValue :=
  getValuesForLabel s.labelsByKey s.selectedKey

/-- The keys useMemo (lines 134 to 136): options for every key of the index. -/
def keySuggestions (s : LabelsState) : List SelectableValue :=
  mapLabelsToOptions (s.labelsByKey.map Prod.fst)

/-- The required rule registered on the key field (line 166): the field is
required exactly when the paired value is truthy, and a required empty field
reports the message. The optional chaining on a missing entry yields a falsy
required flag, matching the empty default entry. -/
def validateKey (s : LabelsState) (i : Nat) : Option String :=
  let e := s.labels.getD i emptyEntry
  if e.value ≠ "" ∧ e.key = "" then some "Required." else none

/-- The required rule registered on the value field (line 186), symmetric to
validateKey. -/
def validateValue (s : LabelsState) (i : Nat) : Option String :=
  let e := s.labels.getD i emptyEntry
  if e.key ≠ "" ∧ e.value = "" then some "Required." else none

/-- The specification-side predicate: some rule of some group of some
namespace carries the pair (k, v) in its labels mapping. -/
def hasLabelPair (cfg : RulerRulesConfig) (k v : String) : Prop :=
  ∃ ns ∈ cfg.namespaces, ∃ g ∈ ns.2, ∃ r ∈ g.rules,
    ∃ ps, r.labels = some ps ∧ (k, v) ∈ ps

/-- The configuration of the worked example in the design document. -/
def exampleConfig : RulerRulesConfig :=
  { namespaces :=
      [("ns",
        [{ rules :=
            [ { labels := some [("sev", "high")] }
            , { labels := some [("sev", "low")] }
            , { labels := some [("sev", "")] } ] }])] }

/-- Adding to an insertion-ordered set never yields the empty set. -/
theorem setAdd_ne_nil (s : List String) (v : String) : setAdd s v ≠ [] := by
  unfold setAdd
  split
  · rename_i h
    intro hnil
    subst hnil
    exact absurd h (List.not_mem_nil v)
  · simp

/-- Membership in an insertion-ordered set after adding an element. -/
theorem mem_setAdd {s : List String} {v w : String} : v ∈ setAdd s w ↔ v = w ∨ v ∈ s := by
  unfold setAdd
  split
  · rename_i h
    constructor
    · exact Or.inr
    · rintro (rfl | hv)
      · exact h
      · exact hv
  · simp [or_comm]

/-- Lookup after inserting one pair into the index. -/
theorem indexLookup_indexInsert (idx : LabelSuggestionIndex) (k v k₂ : String) :
    indexLookup (indexInsert idx k v) k₂ =
      if k = k₂ then setAdd (indexLookup idx k) v else indexLookup idx k₂ := by
  induction idx with
  | nil =>
    by_cases h : k = k₂ <;> simp [indexInsert, indexLookup, setAdd, h]
  | cons p rest ih =>
    obtain ⟨k₁, vs⟩ := p
    by_cases h1 : k₁ = k
    · subst h1
      by_cases h2 : k₁ = k₂ <;> simp [indexInsert, indexLookup, h2]
    · by_cases h2 : k₁ = k₂
      · subst h2
        have hk : ¬ k = k₁ := fun hh => h1 hh.symm
        simp [indexInsert, indexLookup, h1, hk]
      · simp [indexInsert, indexLookup, h1, h2, ih]

/-- Membership in the lookup of the index built by folding the pair step over
a list of label pairs. -/
theorem mem_indexLookup_foldl_addLabelPair (pairs : List (String × String)) :
    ∀ (idx : LabelSuggestionIndex) (k v : String),
      v ∈ indexLookup (pairs.foldl addLabelPair idx) k ↔
        ((k, v) ∈ pairs ∧ v ≠ "") ∨ v ∈ indexLookup idx k := by
  induction pairs with
  | nil =>
    intro idx k v
    simp
  | cons kv rest ih =>
    intro idx k v
    obtain ⟨k₁, v₁⟩ := kv
    rw [List.foldl_cons, ih]
    by_cases hv : v₁ = ""
    · subst hv
      simp only [addLabelPair, if_pos rfl, List.mem_cons, Prod.mk.injEq]
      constructor
      · rintro (⟨hmem, hne⟩ | h)
        · exact Or.inl ⟨Or.inr hmem, hne⟩
        · exact Or.inr h
      · rintro (⟨hmem, hne⟩ | h)
        · rcases hmem with ⟨rfl, rfl⟩ | hmem₂
          · exact absurd rfl hne
          · exact Or.inl ⟨hmem₂, hne⟩
        · exact Or.inr h
    · have hstep : addLabelPair idx (k₁, v₁) = indexInsert idx k₁ v₁ := if_neg hv
      rw [hstep, indexLookup_indexInsert]
      by_cases hk : k₁ = k
      · subst hk
        rw [if_pos rfl]
        simp only [mem_setAdd, List.mem_cons, Prod.mk.injEq, true_and]
        constructor
        · rintro (⟨hmem, hne⟩ | rfl | h)
          · exact Or.inl ⟨Or.inr hmem, hne⟩
          · exact Or.inl ⟨Or.inl rfl, hv⟩
          · exact Or.inr h
        · rintro (⟨hmem, hne⟩ | h)
          · rcases hmem with rfl | hmem₂
            · exact Or.inr (Or.inl rfl)
            · exact Or.inl ⟨hmem₂, hne⟩
          · exact Or.inr (Or.inr h)
      · rw [if_neg hk]
        simp only [List.mem_cons, Prod.mk.injEq]
        constructor
        · rintro (⟨hmem, hne⟩ | h)
          · exact Or.inl ⟨Or.inr hmem, hne⟩
          · exact Or.inr h
        · rintro (⟨hmem, hne⟩ | h)
          · rcases hmem with ⟨rfl, rfl⟩ | hmem₂
            · exact absurd rfl hk
            · exact Or.inl ⟨hmem₂, hne⟩
          · exact Or.inr h

/-- Membership in the lookup of the index built by folding the rule step over
a list of rules. -/
theorem mem_indexLookup_foldl_addRuleLabels (rules : List Rule) :
    ∀ (idx : LabelSuggestionIndex) (k v : String),
      v ∈ indexLookup (rules.foldl addRuleLabels idx) k ↔
        (∃ r ∈ rules, ∃ ps, r.labels = some ps ∧ (k, v) ∈ ps ∧ v ≠ "")
          ∨ v ∈ indexLookup idx k := by
  induction rules with
  | nil =>
    intro idx k v
    simp
  | cons r rest ih =>
    intro idx k v
    rw [List.foldl_cons, ih]
    cases hr : r.labels with
    | none =>
      have hstep : addRuleLabels idx r = idx := by
        unfold addRuleLabels
        rw [hr]
      rw [hstep]
      simp only [List.exists_mem_cons_iff, hr]
      constructor
      · rintro (h | h)
        · exact Or.inl (Or.inr h)
        · exact Or.inr h
      · rintro ((⟨ps, hps, _⟩ | h) | h)
        · exact absurd hps (by simp)
        · exact Or.inl h
        · exact Or.inr h
    | some ps =>
      have hstep : addRuleLabels idx r = ps.foldl addLabelPair idx := by
        unfold addRuleLabels
        rw [hr]
      rw [hstep, mem_indexLookup_foldl_addLabelPair]
      simp only [List.exists_mem_cons_iff, hr, Option.some.injEq]
      constructor
      · rintro (h | ⟨hmem, hne⟩ | h)
        · exact Or.inl (Or.inr h)
        · exact Or.inl (Or.inl ⟨ps, rfl, hmem, hne⟩)
        · exact Or.inr h
      · rintro ((⟨ps₂, hps, hmem, hne⟩ | h) | h)
        · cases hps
          exact Or.inr (Or.inl ⟨hmem, hne⟩)
        · exact Or.inl h
        · exact Or.inr (Or.inr h)

/-- Membership in the flattened rule list of a configuration. -/
theorem mem_allRulesOf {cfg : RulerRulesConfig} {r : Rule} :
    r ∈ allRulesOf cfg ↔ ∃ ns ∈ cfg.namespaces, ∃ g ∈ ns.2, r ∈ g.rules := by
  unfold allRulesOf
  simp only [List.mem_flatMap, List.mem_map, id]
  constructor
  · rintro ⟨g, ⟨gl, ⟨ns, hns, rfl⟩, hg⟩, hr⟩
    exact ⟨ns, hns, g, hg, hr⟩
  · rintro ⟨ns, hns, g, hg, hr⟩
    exact ⟨g, ⟨ns.2, ⟨ns, hns, rfl⟩, hg⟩, hr⟩

/-- Claim C1: the suggestion index maps a key to exactly the distinct non-empty
values carried by that key on some rule of some group of some namespace, and
the worked example yields the sev set with high and low, the empty value
excluded. -/
theorem buildSuggestionIndex_characterization :
    (∀ (cfg : RulerRulesConfig) (k v : String),
        v ∈ indexLookup (buildSuggestionIndex (some cfg)) k ↔
          (v ≠ "" ∧ hasLabelPair cfg k v))
    ∧ buildSuggestionIndex (some exampleConfig) = [("sev", ["high", "low"])] := by
  constructor
  · intro cfg k v
    show v ∈ indexLookup ((allRulesOf cfg).foldl addRuleLabels []) k ↔ _
    rw [mem_indexLookup_foldl_addRuleLabels]
    unfold hasLabelPair
    constructor
    · rintro (⟨r, hr, ps, hps, hkv, hne⟩ | h)
      · obtain ⟨ns, hns, g, hg, hrg⟩ := mem_allRulesOf.mp hr
        exact ⟨hne, ns, hns, g, hg, r, hrg, ps, hps, hkv⟩
      · exact absurd h (List.not_mem_nil v)
    · rintro ⟨hne, ns, hns, g, hg, r, hrg, ps, hps, hkv⟩
      exact Or.inl ⟨r, mem_allRulesOf.mpr ⟨ns, hns, g, hg, hrg⟩, ps, hps, hkv, hne⟩
  · rfl

/-- Every entry of the index after inserting a pair still carries a non-empty
value set, provided every entry did before. -/
theorem snd_ne_nil_indexInsert (idx : LabelSuggestionIndex) (k v : String)
    (hidx : ∀ p ∈ idx, p.2 ≠ []) : ∀ p ∈ indexInsert idx k v, p.2 ≠ [] := by
  induction idx with
  | nil =>
    intro p hp
    simp only [indexInsert, List.mem_singleton] at hp
    subst hp
    simp
  | cons q rest ih =>
    obtain ⟨k₁, vs⟩ := q
    intro p hp
    by_cases h1 : k₁ = k
    · rw [indexInsert, if_pos h1] at hp
      rcases List.mem_cons.mp hp with rfl | hmem
      · exact setAdd_ne_nil vs v
      · exact hidx p (List.mem_cons_of_mem _ hmem)
    · rw [indexInsert, if_neg h1] at hp
      rcases List.mem_cons.mp hp with rfl | hmem
      · exact hidx _ (List.mem_cons_self _ _)
      · exact ih (fun q hq => hidx q (List.mem_cons_of_mem _ hq)) p hmem

/-- The pair fold preserves the non-empty-value-set invariant. -/
theorem snd_ne_nil_foldl_addLabelPair (pairs : List (String × String)) :
    ∀ (idx : LabelSuggestionIndex), (∀ p ∈ idx, p.2 ≠ []) →
      ∀ p ∈ pairs.foldl addLabelPair idx, p.2 ≠ [] := by
  induction pairs with
  | nil => exact fun idx hidx => hidx
  | cons kv rest ih =>
    intro idx hidx
    rw [List.foldl_cons]
    refine ih _ ?_
    unfold addLabelPair
    split
    · exact hidx
    · exact snd_ne_nil_indexInsert idx kv.1 kv.2 hidx

/-- The rule fold preserves the non-empty-value-set invariant. -/
theorem snd_ne_nil_foldl_addRuleLabels (rules : List Rule) :
    ∀ (idx : LabelSuggestionIndex), (∀ p ∈ idx, p.2 ≠ []) →
      ∀ p ∈ rules.foldl addRuleLabels idx, p.2 ≠ [] := by
  induction rules with
  | nil => exact fun idx hidx => hidx
  | cons r rest ih =>
    intro idx hidx
    rw [List.foldl_cons]
    refine ih _ ?_
    unfold addRuleLabels
    cases r.labels with
    | none => exact hidx
    | some ps => exact snd_ne_nil_foldl_addLabelPair ps idx hidx

/-- Claim C2: the suggestion index never contains a key mapped to an empty
value set. -/
theorem buildSuggestionIndex_no_empty_sets (config : Option RulerRulesConfig)
    (p : String × List String) (hp : p ∈ buildSuggestionIndex config) : p.2 ≠ [] := by
  cases config with
  | none => exact absurd hp (List.not_mem_nil p)
  | some cfg =>
    exact snd_ne_nil_foldl_addRuleLabels (allRulesOf cfg) []
      (fun q hq => absurd hq (List.not_mem_nil q)) p hp

/-- Witness for claim C2 at the example configuration. -/
theorem buildSuggestionIndex_no_empty_sets_witness :
    (("sev", ["high", "low"]) : String × List String).2 ≠ [] :=
  buildSuggestionIndex_no_empty_sets (some exampleConfig) ("sev", ["high", "low"])
    (by decide)

/-- Claim C6: an absent configuration and a configuration without namespaces
both yield the empty index. -/
theorem buildSuggestionIndex_empty_inputs :
    buildSuggestionIndex none = []
    ∧ buildSuggestionIndex (some { namespaces := [] }) = [] :=
  ⟨rfl, rfl⟩

/-- Reading with a default at a valid position is reading the element. -/
theorem labels_getD_eq_get (l : List LabelEntry) (i : Nat) (d : LabelEntry)
    (h : i < l.length) : l.getD i d = l.get ⟨i, h⟩ := by
  induction l generalizing i with
  | nil => exact absurd h (Nat.not_lt_zero i)
  | cons e rest ih =>
    cases i with
    | zero => rfl
    | succ j => exact ih j (Nat.lt_of_succ_lt_succ h)

/-- Updating at a valid position changes the element there as prescribed. -/
theorem getD_updateAt_self (l : List LabelEntry) (i : Nat) (f : LabelEntry → LabelEntry)
    (d : LabelEntry) (h : i < l.length) : (updateAt l i f).getD i d = f (l.getD i d) := by
  induction l generalizing i with
  | nil => exact absurd h (Nat.not_lt_zero i)
  | cons e rest ih =>
    cases i with
    | zero => rfl
    | succ j => exact ih j (Nat.lt_of_succ_lt_succ h)

/-- Updating one position leaves every other position unchanged. -/
theorem getD_updateAt_ne (l : List LabelEntry) (i j : Nat) (f : LabelEntry → LabelEntry)
    (d : LabelEntry) (hne : j ≠ i) : (updateAt l i f).getD j d = l.getD j d := by
  induction l generalizing i j with
  | nil => rfl
  | cons e rest ih =>
    cases i with
    | zero =>
      cases j with
      | zero => exact absurd rfl hne
      | succ j₂ => rfl
    | succ i₂ =>
      cases j with
      | zero => rfl
      | succ j₂ => exact ih i₂ j₂ (fun hh => hne (congrArg Nat.succ hh))

/-- Claim C3: the key field is invalid with the message exactly when its key
is empty and the paired value is non-empty, symmetrically for the value
field, and an entry with both fields empty passes both checks. -/
theorem validate_required_characterization (s : LabelsState) (i : Nat)
    (h : i < s.labels.length) :
    (validateKey s i = some "Required." ↔
      ((s.labels.get ⟨i, h⟩).key = "" ∧ (s.labels.get ⟨i, h⟩).value ≠ ""))
    ∧ (validateValue s i = some "Required." ↔
      ((s.labels.get ⟨i, h⟩).value = "" ∧ (s.labels.get ⟨i, h⟩).key ≠ ""))
    ∧ ((s.labels.get ⟨i, h⟩).key = "" → (s.labels.get ⟨i, h⟩).value = "" →
        validateKey s i = none ∧ validateValue s i = none) := by
  unfold validateKey validateValue
  rw [labels_getD_eq_get s.labels i emptyEntry h]
  dsimp only
  refine ⟨?_, ?_, ?_⟩
  · split
    · rename_i hcond
      exact iff_of_true rfl ⟨hcond.2, hcond.1⟩
    · rename_i hcond
      exact iff_of_false (by simp) (fun hcontra => hcond ⟨hcontra.2, hcontra.1⟩)
  · split
    · rename_i hcond
      exact iff_of_true rfl ⟨hcond.2, hcond.1⟩
    · rename_i hcond
      exact iff_of_false (by simp) (fun hcontra => hcond ⟨hcontra.2, hcontra.1⟩)
  · intro hk hv
    constructor
    · rw [if_neg]
      rintro ⟨hne, -⟩
      exact hne hv
    · rw [if_neg]
      rintro ⟨hne, -⟩
      exact hne hk

/-- Witness for claim C3: an entry with empty key and non-empty value is
reported invalid on the key check. -/
theorem validate_required_characterization_witness :
    validateKey { labels := [{ key := "", value := "x" }], selectedKey := "",
                  labelsByKey := [] } 0 = some "Required." :=
  (validate_required_characterization
    { labels := [{ key := "", value := "x" }], selectedKey := "", labelsByKey := [] }
    0 (by decide)).1.mpr (by decide)

/-- Claim C4: opening the value-suggestion list for an entry sets the selected
key to the key currently stored at that entry, and the current suggestions are
then the values stored under that key in the most recent index; in particular
setting the key of entry zero to team and then opening its value list selects
team and suggests the values stored under team. -/
theorem onOpenValueSuggestions_spec (s : LabelsState) (i : Nat) (h : i < s.labels.length) :
    ((onOpenValueSuggestions s i).selectedKey = (s.labels.get ⟨i, h⟩).key
      ∧ currentSuggestions (onOpenValueSuggestions s i)
          = getValuesForLabel s.labelsByKey (s.labels.get ⟨i, h⟩).key)
    ∧ (∀ t : LabelsState, 0 < t.labels.length →
        (onOpenValueSuggestions (setEntryKey t 0 "team") 0).selectedKey = "team"
        ∧ currentSuggestions (onOpenValueSuggestions (setEntryKey t 0 "team") 0)
            = getValuesForLabel t.labelsByKey "team") := by
  constructor
  · have hkey : (onOpenValueSuggestions s i).selectedKey = (s.labels.get ⟨i, h⟩).key := by
      show (s.labels.getD i emptyEntry).key = _
      rw [labels_getD_eq_get s.labels i emptyEntry h]
    refine ⟨hkey, ?_⟩
    show getValuesForLabel s.labelsByKey (onOpenValueSuggestions s i).selectedKey = _
    rw [hkey]
  · rintro ⟨ls, sk, lbk⟩ ht
    cases ls with
    | nil => exact absurd ht (by simp)
    | cons e rest => exact ⟨rfl, rfl⟩

/-- Witness for claim C4 at a one-entry state whose entry carries key team. -/
theorem onOpenValueSuggestions_spec_witness :
    (onOpenValueSuggestions
      { labels := [{ key := "team", value := "" }], selectedKey := "x",
        labelsByKey := [("team", ["a"])] } 0).selectedKey = "team" :=
  ((onOpenValueSuggestions_spec
    { labels := [{ key := "team", value := "" }], selectedKey := "x",
      labelsByKey := [("team", ["a"])] } 0 (by decide)).1.1).trans rfl

/-- Claim C5: setting the key of an entry replaces that key, keeps the paired
value, and sets the selected key to the new key. -/
theorem setEntryKey_spec (s : LabelsState) (i : Nat) (newKey : String)
    (h : i < s.labels.length) :
    ((setEntryKey s i newKey).labels.getD i emptyEntry).key = newKey
    ∧ ((setEntryKey s i newKey).labels.getD i emptyEntry).value
        = (s.labels.getD i emptyEntry).value
    ∧ (setEntryKey s i newKey).selectedKey = newKey := by
  have hupd : (setEntryKey s i newKey).labels.getD i emptyEntry
      = { s.labels.getD i emptyEntry with key := newKey } := by
    show (updateAt s.labels i _).getD i emptyEntry = _
    rw [getD_updateAt_self s.labels i _ emptyEntry h]
  rw [hupd]
  exact ⟨rfl, rfl, rfl⟩

/-- Witness for claim C5 at a one-entry state. -/
theorem setEntryKey_spec_witness :
    ((setEntryKey { labels := [{ key := "a", value := "b" }], selectedKey := "",
                    labelsByKey := [] } 0 "team").labels.getD 0 emptyEntry).key = "team" :=
  (setEntryKey_spec
    { labels := [{ key := "a", value := "b" }], selectedKey := "", labelsByKey := [] }
    0 "team" (by decide)).1

/-- Claim C10: setting the value of an entry changes only that value: the
selected key, the suggestion index, the key of the entry, and every other
entry are unchanged; appending an entry and removing an entry also leave the
selected key unchanged, so only setEntryKey and onOpenValueSuggestions ever
touch it. -/
theorem setEntryValue_frame (s : LabelsState) (i j : Nat) (newValue : String)
    (h : i < s.labels.length) (hj : j ≠ i) :
    (setEntryValue s i newValue).selectedKey = s.selectedKey
    ∧ (setEntryValue s i newValue).labelsByKey = s.labelsByKey
    ∧ ((setEntryValue s i newValue).labels.getD i emptyEntry).value = newValue
    ∧ ((setEntryValue s i newValue).labels.getD i emptyEntry).key
        = (s.labels.getD i emptyEntry).key
    ∧ (setEntryValue s i newValue).labels.getD j emptyEntry = s.labels.getD j emptyEntry
    ∧ (addEntry s).selectedKey = s.selectedKey
    ∧ (removeEntry s i).selectedKey = s.selectedKey := by
  have hupd : (setEntryValue s i newValue).labels.getD i emptyEntry
      = { s.labels.getD i emptyEntry with value := newValue } := by
    show (updateAt s.labels i _).getD i emptyEntry = _
    rw [getD_updateAt_self s.labels i _ emptyEntry h]
  refine ⟨rfl, rfl, ?_, ?_, ?_, rfl, rfl⟩
  · rw [hupd]
  · rw [hupd]
  · show (updateAt s.labels i _).getD j emptyEntry = _
    rw [getD_updateAt_ne s.labels i j _ emptyEntry hj]

/-- Witness for claim C10 at a two-entry state. -/
theorem setEntryValue_frame_witness :
    (setEntryValue
      { labels := [{ key := "a", value := "b" }, { key := "c", value := "d" }],
        selectedKey := "sel", labelsByKey := [] } 0 "z").selectedKey = "sel" :=
  (setEntryValue_frame
    { labels := [{ key := "a", value := "b" }, { key := "c", value := "d" }],
      selectedKey := "sel", labelsByKey := [] } 0 1 "z" (by decide) (by decide)).1

/-- Flattening a list of mapped elements is flattening after composing. -/
theorem flatMap_map_eq {α β γ : Type} (l : List α) (f : α → β) (g : β → List γ) :
    (l.map f).flatMap g = l.flatMap (fun x => g (f x)) := by
  induction l with
  | nil => rfl
  | cons x rest ih => simp [List.flatMap_cons, ih]

/-- Filtering distributes over flattening. -/
theorem filter_flatMap_eq {α β : Type} (l : List α) (f : α → List β) (p : β → Bool) :
    (l.flatMap fun x => (f x).filter p) = (l.flatMap f).filter p := by
  induction l with
  | nil => rfl
  | cons x rest ih => simp [List.flatMap_cons, List.filter_append, ih]

/-- The flattened rule list, written as one flatMap over namespaces. -/
theorem allRulesOf_eq (cfg : RulerRulesConfig) :
    allRulesOf cfg = cfg.namespaces.flatMap (fun ns => ns.2.flatMap (fun g => g.rules)) := by
  unfold allRulesOf
  generalize cfg.namespaces = nss
  induction nss with
  | nil => rfl
  | cons ns rest ih =>
    rw [List.map_cons, List.flatMap_cons, List.flatMap_append, ih, List.flatMap_cons]
    rfl

/-- The configuration with every rule lacking a labels mapping removed. -/
def pruneRulesWithoutLabels (cfg : RulerRulesConfig) : RulerRulesConfig :=
  { namespaces := cfg.namespaces.map (fun ns =>
      (ns.1, ns.2.map (fun g => { rules := g.rules.filter (fun r => r.labels.isSome) }))) }

/-- Pruning the rules without labels filters the flattened rule list. -/
theorem allRulesOf_prune (cfg : RulerRulesConfig) :
    allRulesOf (pruneRulesWithoutLabels cfg)
      = (allRulesOf cfg).filter (fun r => r.labels.isSome) := by
  rw [allRulesOf_eq, allRulesOf_eq]
  unfold pruneRulesWithoutLabels
  rw [flatMap_map_eq, ← filter_flatMap_eq]
  congr 1
  funext ns
  rw [flatMap_map_eq, ← filter_flatMap_eq]

/-- Folding the rule step over the rules kept by the filter is folding it over
all rules, because a rule without labels leaves the index unchanged. -/
theorem foldl_addRuleLabels_filter (rules : List Rule) :
    ∀ idx : LabelSuggestionIndex,
      (rules.filter (fun r => r.labels.isSome)).foldl addRuleLabels idx
        = rules.foldl addRuleLabels idx := by
  induction rules with
  | nil => intro idx; rfl
  | cons r rest ih =>
    intro idx
    rw [List.foldl_cons]
    cases hr : r.labels with
    | none =>
      have h1 : addRuleLabels idx r = idx := by
        unfold addRuleLabels
        rw [hr]
      have h2 : r.labels.isSome = false := by rw [hr]; rfl
      rw [h1]
      simp only [List.filter_cons, h2]
      exact ih idx
    | some ps =>
      have h2 : r.labels.isSome = true := by rw [hr]; rfl
      simp only [List.filter_cons, h2, if_pos, List.foldl_cons]
      exact ih (addRuleLabels idx r)

/-- Claim C7: the aggregation has no failure path for a rule whose labels
mapping is missing: such a rule contributes nothing, and removing all such
rules from a configuration leaves the index unchanged. -/
theorem missing_labels_are_ignored :
    (∀ (idx : LabelSuggestionIndex) (r : Rule), r.labels = none → addRuleLabels idx r = idx)
    ∧ (∀ cfg : RulerRulesConfig,
        buildSuggestionIndex (some cfg)
          = buildSuggestionIndex (some (pruneRulesWithoutLabels cfg))) := by
  constructor
  · intro idx r h
    unfold addRuleLabels
    rw [h]
  · intro cfg
    show (allRulesOf cfg).foldl addRuleLabels []
        = (allRulesOf (pruneRulesWithoutLabels cfg)).foldl addRuleLabels []
    rw [allRulesOf_prune, foldl_addRuleLabels_filter]

/-- Witness for claim C7: a rule without a labels mapping leaves the empty
index empty. -/
theorem missing_labels_are_ignored_witness :
    addRuleLabels [] { labels := none } = [] :=
  missing_labels_are_ignored.1 [] { labels := none } rfl

/-- Claim C8: the index depends only on the content of the configuration:
two equal inputs give indexes with the same keys in the same order and, for
every key, value sets with identical membership. -/
theorem buildSuggestionIndex_deterministic (cfg₁ cfg₂ : Option RulerRulesConfig)
    (h : cfg₁ = cfg₂) :
    (buildSuggestionIndex cfg₁).map Prod.fst = (buildSuggestionIndex cfg₂).map Prod.fst
    ∧ ∀ k v : String,
        (v ∈ indexLookup (buildSuggestionIndex cfg₁) k ↔
          v ∈ indexLookup (buildSuggestionIndex cfg₂) k) := by
  subst h
  exact ⟨rfl, fun _ _ => Iff.rfl⟩

/-- Witness for claim C8 on two separately written copies of one
configuration. -/
theorem buildSuggestionIndex_deterministic_witness :
    (buildSuggestionIndex
        (some { namespaces := [("ns", [{ rules := [{ labels := some [("a", "b")] }] }])] })).map
        Prod.fst
      = (buildSuggestionIndex
        (some { namespaces := [("ns", [{ rules := [{ labels := some [("a", "b")] }] }])] })).map
        Prod.fst :=
  (buildSuggestionIndex_deterministic
    (some { namespaces := [("ns", [{ rules := [{ labels := some [("a", "b")] }] }])] })
    (some { namespaces := [("ns", [{ rules := [{ labels := some [("a", "b")] }] }])] })
    rfl).1

/-- Reading the option values back out of the options of a value list gives
back the value list. -/
theorem map_value_mapLabelsToOptions (items : List String) :
    (mapLabelsToOptions items).map SelectableValue.value = items := by
  induction items with
  | nil => rfl
  | cons x rest ih =>
    show x :: (mapLabelsToOptions rest).map SelectableValue.value = x :: rest
    rw [ih]

/-- Reading the option labels back out of the options of a value list gives
back the value list. -/
theorem map_label_mapLabelsToOptions (items : List String) :
    (mapLabelsToOptions items).map SelectableValue.label = items := by
  induction items with
  | nil => rfl
  | cons x rest ih =>
    show x :: (mapLabelsToOptions rest).map SelectableValue.label = x :: rest
    rw [ih]

/-- Lookup of a key that appears in no entry of the index is empty. -/
theorem indexLookup_eq_nil_of_not_mem (idx : LabelSuggestionIndex) (k : String)
    (h : k ∉ idx.map Prod.fst) : indexLookup idx k = [] := by
  induction idx with
  | nil => rfl
  | cons p rest ih =>
    obtain ⟨k₁, vs⟩ := p
    simp only [List.map_cons, List.mem_cons, not_or] at h
    rw [show indexLookup ((k₁, vs) :: rest) k
          = if k₁ = k then vs else indexLookup rest k from rfl,
       if_neg (fun hh => h.1 hh.symm)]
    exact ih h.2

/-- Claim C9: the option sequence for a key lists exactly the values stored
under that key, in order, both as option values and as option labels, and an
unknown key yields the empty sequence. -/
theorem getValuesForLabel_spec (idx : LabelSuggestionIndex) (key : String) :
    (getValuesForLabel idx key).map SelectableValue.value = indexLookup idx key
    ∧ (getValuesForLabel idx key).map SelectableValue.label = indexLookup idx key
    ∧ (key ∉ idx.map Prod.fst → getValuesForLabel idx key = []) := by
  refine ⟨?_, ?_, ?_⟩
  · exact map_value_mapLabelsToOptions (indexLookup idx key)
  · exact map_label_mapLabelsToOptions (indexLookup idx key)
  · intro h
    unfold getValuesForLabel
    rw [indexLookup_eq_nil_of_not_mem idx key h]
    rfl

/-- Witness for claim C9 at a one-entry index and an absent key. -/
theorem getValuesForLabel_spec_witness :
    getValuesForLabel [("a", ["x"])] "b" = [] :=
  (getValuesForLabel_spec [("a", ["x"])] "b").2.2 (by decide)
